import Mathlib

/-!
Shallow embedding of the progression & scoring engine of
`src/realtimepythonweb.py` (a team-based scavenger-hunt web app).

The SQLAlchemy rows become Lean structures; the relational store becomes a
`DB` structure holding the row lists in insertion order (SQLAlchemy's
`query.first()` without an `order_by` returns rows in rowid = insertion
order, which the list order models).  Auto-increment primary keys become
explicit `Nat` ids; nullable foreign keys become `Option Nat`.  Wall-clock
timestamps (`datetime.utcnow()`) are threaded as an explicit `now : Nat`
parameter.  Columns that are only displayed (titles, riddles, hint texts,
difficulty, login codes, display names) are omitted: no engine operation
reads them.  Python truthiness on nullable columns is modelled on
`Option`; `x or 0` on a nullable integer column is `pyIntOr`.
-/

namespace Realspeur

/-- A row of the `User` table (display-only columns omitted). -/
structure User where
  id : Nat
  is_admin : Bool
  team_id : Option Nat
deriving DecidableEq

/-- A row of the `Team` table. -/
structure Team where
  id : Nat
  name : String
  score : Int
  route_id : Option Nat
  route_step_index : Nat
  current_poi_id : Option Nat
  is_finished : Bool
deriving DecidableEq

/-- A row of the `POI` table (display-only columns omitted).
`points` is a nullable integer column (`default=10`), hence `Option Int`. -/
structure POI where
  id : Nat
  completion_type : String
  answer_key : Option String
  points : Option Int
deriving DecidableEq

/-- A row of the `Route` table. -/
structure Route where
  id : Nat
  name : String
deriving DecidableEq

/-- A row of the `RouteStep` table (its own primary key is never read). -/
structure RouteStep where
  route_id : Nat
  poi_id : Nat
  step_index : Nat
deriving DecidableEq

/-- A row of the `TeamPOIProgress` table. -/
structure TeamPOIProgress where
  team_id : Nat
  poi_id : Nat
  status : String
  hints_used : Nat
  completed_at : Option Nat
deriving DecidableEq

/-- A row of the `Submission` table (`type` is `ty`: `type` is a keyword). -/
structure Submission where
  team_id : Nat
  poi_id : Nat
  ty : String
  content : String
  status : String
deriving DecidableEq

/-- The relational store consulted by the engine (rows in insertion order). -/
structure DB where
  steps : List RouteStep
  pois : List POI
  progress : List TeamPOIProgress
  subs : List Submission
deriving DecidableEq

/-- Python `x or 0` on a nullable integer column: `None` and `0` both give
the default. -/
def pyIntOr (x : Option Int) (dflt : Int) : Int :=
  match x with
  | none => dflt
  | some v => if v = 0 then dflt else v

/-- Source: `POI.query.get(pid)` / relationship resolution by primary key. -/
def findPOI (pois : List POI) (pid : Nat) : Option POI :=
  pois.find? (fun p => p.id = pid)

/-- Source: `TeamPOIProgress.query.filter_by(team_id=tid, poi_id=pid).first()`. -/
def findProgress : List TeamPOIProgress → Nat → Nat → Option TeamPOIProgress
  | [], _, _ => none
  | p :: ps, tid, pid =>
    if p.team_id = tid ∧ p.poi_id = pid then some p else findProgress ps tid pid

/-- Mutating the ORM object returned by `.first()`: rewrite the first row
matching `(tid, pid)` in place. -/
def updateFirst (f : TeamPOIProgress → TeamPOIProgress) :
    List TeamPOIProgress → Nat → Nat → List TeamPOIProgress
  | [], _, _ => []
  | p :: ps, tid, pid =>
    if p.team_id = tid ∧ p.poi_id = pid then f p :: ps
    else p :: updateFirst f ps tid pid

/-- Source: `TeamPOIProgress(team_id=tid, poi_id=pid, status="assigned")` with the
column default `hints_used=0` (`request_hint` passes `hints_used=0`
explicitly; same row). -/
def mkProgress (tid pid : Nat) : TeamPOIProgress :=
  { team_id := tid, poi_id := pid, status := "assigned", hints_used := 0,
    completed_at := none }

/-- The look-up-before-insert pattern used at all three progress-creation
sites: `existing = TeamPOIProgress.query.filter_by(team_id=tid,
poi_id=pid).first(); if not existing: db.session.add(TeamPOIProgress(...))`. -/
def lazyInit (l : List TeamPOIProgress) (tid pid : Nat) : List TeamPOIProgress :=
  if (findProgress l tid pid).isSome then l else l ++ [mkProgress tid pid]

/-- Reads `progress.hints_used` as the engine does: the first matching row's
counter, `0` if no row exists yet. -/
def hintsOfList (l : List TeamPOIProgress) (tid pid : Nat) : Nat :=
  match findProgress l tid pid with
  | some p => p.hints_used
  | none => 0

/-- Hints recorded for `(tid, pid)` in the store. -/
def hintsUsed (db : DB) (tid pid : Nat) : Nat :=
  hintsOfList db.progress tid pid

/-- Ordering predicate for `ORDER BY step_index ASC`. -/
def stepLE (a b : RouteStep) : Prop := a.step_index ≤ b.step_index

instance : DecidableRel stepLE := fun a b => Nat.decLe a.step_index b.step_index

/-- Source: `RouteStep.query.filter_by(route_id=rid).order_by(step_index.asc()).all()`
(`insertionSort` models the stable SQL sort and evaluates by `decide`). -/
def routeSteps (db : DB) (rid : Nat) : List RouteStep :=
  List.insertionSort stepLE (db.steps.filter (fun s => s.route_id = rid))

/-- Source: `assign_next_poi(team)`, route-based assignment.  Looks up the route's
steps sorted by index; `route_step_index` selects the next step; if past
the end, marks the team finished.  Creates the progress row lazily.
`if not team.route_id` is `Option`-truthiness (real ids start at 1).
POIs are never deleted, so `next_step.poi` always resolves and we store
`next_step.poi_id` directly. -/
def assign_next_poi (team : Team) (db : DB) : Team × DB :=
  match team.route_id with
  | none =>
    ({ team with current_poi_id := none, is_finished := false }, db)
  | some rid =>
    let steps := routeSteps db rid
    if steps.length ≤ team.route_step_index then
      ({ team with current_poi_id := none, is_finished := true }, db)
    else
      let next_step := steps.getD team.route_step_index ⟨0, 0, 0⟩
      let db' := { db with progress := lazyInit db.progress team.id next_step.poi_id }
      ({ team with current_poi_id := some next_step.poi_id, is_finished := false }, db')

/-- Source: `complete_current_poi(team, poi)`, marks progress completed, awards
`max(0, (poi.points or 0) - 2 * (progress.hints_used or 0))`, advances the
route index, and assigns the next POI.  Returns the awarded points. -/
def complete_current_poi (now : Nat) (team : Team) (poi : POI) (db : DB) :
    Int × Team × DB :=
  let db1 := { db with progress := lazyInit db.progress team.id poi.id }
  let hints := hintsOfList db1.progress team.id poi.id
  let completedRows :=
    updateFirst (fun p => { p with status := "completed", completed_at := some now })
      db1.progress team.id poi.id
  let db2 := { db1 with progress := completedRows }
  let penalty : Int := (hints : Int) * 2
  let points : Int := max 0 (pyIntOr poi.points 0 - penalty)
  let team1 := { team with score := team.score + points,
                           route_step_index := team.route_step_index + 1 }
  let r := assign_next_poi team1 db2
  (points, r.1, r.2)

/-- The `/action/hint` handler, below the session/identity boundary: the
caller was resolved to a non-admin user on `team`.  A missing progress row
is created with `hints_used=0`; the counter is bumped only below the cap
of 3 (beyond the cap the request is a silent no-op redirect). -/
def request_hint (team : Team) (db : DB) : DB :=
  match team.current_poi_id with
  | none => db
  | some pid =>
    match findPOI db.pois pid with
    | none => db
    | some _ =>
      let db1 := { db with progress := lazyInit db.progress team.id pid }
      let h := hintsOfList db1.progress team.id pid
      if h < 3 then
        let bumped :=
          updateFirst (fun p => { p with hints_used := p.hints_used + 1 })
            db1.progress team.id pid
        { db1 with progress := bumped }
      else db1

/-- The payload of a `/action/submit` POST: an optional file part
(`request.files["proof_file"]`, carrying its client filename; `some ""`
is a present-but-empty filename) and an optional `proof_text` form field. -/
structure Request where
  proof_file : Option String
  proof_text : Option String
deriving DecidableEq

/-- Python `str.strip()`: drop leading and trailing whitespace (kernel-
computable, unlike `String.trim`; agrees with it on ASCII data). -/
def py_strip (s : String) : String :=
  ⟨((s.data.dropWhile Char.isWhitespace).reverse.dropWhile Char.isWhitespace).reverse⟩

/-- Python `str.lower()` (ASCII case folding, as all answer keys here). -/
def py_lower (s : String) : String :=
  ⟨s.data.map Char.toLower⟩

/-- Modelled from the spec: `werkzeug.utils.secure_filename` belongs to the
excluded media/boundary collaborator (spec §4.1, §6), not to this
repository.  The spec only requires a sanitized, possibly-empty ASCII
filename; we keep ASCII alphanumerics and `._-`, turn whitespace into
`_`, and strip `.`/`_` from both ends, as the collaborator does. -/
def secure_filename (s : String) : String :=
  let replaced := s.data.map (fun c => if c.isWhitespace then '_' else c)
  let kept := replaced.filter (fun c => c.isAlphanum ∨ c = '_' ∨ c = '.' ∨ c = '-')
  let l := kept.dropWhile (fun c => c = '.' ∨ c = '_')
  let r := (l.reverse.dropWhile (fun c => c = '.' ∨ c = '_')).reverse
  String.mk r

/-- Source: `pathlib.Path(s).suffix`, the extension of the final path component,
taken from its last dot when that dot is neither first nor last. -/
def path_suffix (s : String) : String :=
  let name : List Char := (s.data.reverse.takeWhile (fun c => c ≠ '/')).reverse
  match (name.reverse.findIdx? (fun c => c = '.')).map
      (fun j => name.length - 1 - j) with
  | none => ""
  | some i => if 0 < i ∧ i + 1 < name.length then ⟨name.drop i⟩ else ""

/-- Source: `ALLOWED_EXTS` with jpg, jpeg, png and webp. -/
def ALLOWED_EXTS : List String := [".jpg", ".jpeg", ".png", ".webp"]

/-- Source: `allowed_image_filename(filename)`. -/
def allowed_image_filename (filename : String) : Bool :=
  ALLOWED_EXTS.contains (py_lower (path_suffix filename))

/-- The accepted-proof tail shared by both branches of `submit_proof`:
append an approved `Submission` row, then run `complete_current_poi`. -/
def record_and_complete (now : Nat) (team : Team) (poi : POI)
    (ty content : String) (db : DB) : Team × DB :=
  let db1 := { db with subs := db.subs ++
    [{ team_id := team.id, poi_id := poi.id, ty := ty, content := content,
       status := "approved" }] }
  let r := complete_current_poi now team poi db1
  (r.2.1, r.2.2)

/-- The `/action/submit` handler, below the session/identity boundary.
`poi = team.current_poi` — the handler carries no POI parameter and always
grades the team's current POI.  The photo branch auto-accepts any
syntactically valid image filename (saving bytes to disk is the media
collaborator); every non-`photo` completion type falls through to the
text branch, which reads `proof_text` with default `""`, normalizes both
sides by `strip().lower()`, and requires a non-empty normalized key. -/
def submit_proof (now : Nat) (team : Team) (req : Request) (db : DB) :
    Team × DB :=
  match team.current_poi_id with
  | none => (team, db)
  | some pid =>
    match findPOI db.pois pid with
    | none => (team, db)
    | some poi =>
      if poi.completion_type = "photo" then
        match req.proof_file with
        | none => (team, db)
        | some fname =>
          if fname = "" then (team, db)
          else
            let safe := secure_filename fname
            if safe = "" then (team, db)
            else if ¬ allowed_image_filename safe then (team, db)
            else
              let ext := py_lower (path_suffix safe)
              let unique := "team" ++ toString team.id ++ "_poi" ++
                toString poi.id ++ "_" ++ toString now ++ ext
              record_and_complete now team poi "photo" unique db
      else
        let answer := py_lower (py_strip (req.proof_text.getD ""))
        let correct := py_lower (py_strip (poi.answer_key.getD ""))
        if correct ≠ "" ∧ answer = correct then
          record_and_complete now team poi "text" answer db
        else (team, db)

/-- The whole mutable application state, for the team-formation batch
operation: all rows plus the auto-increment counter for Team ids. -/
structure World where
  users : List User
  teams : List Team
  routes : List Route
  db : DB
  next_team_id : Nat
deriving DecidableEq

/-- Source: the chunking comprehension over `range(0, len(ungrouped), 4)` with
`chunk_size = 4`. -/
def chunks4 : List α → List (List α)
  | [] => []
  | [a] => [[a]]
  | [a, b] => [[a, b]]
  | [a, b, c] => [[a, b, c]]
  | a :: b :: c :: d :: rest => [a, b, c, d] :: chunks4 rest

/-- Source: merging the popped last chunk into the previous one when more than one chunk exists and the last has fewer than 3 members. -/
def mergeSmallLast (cs : List (List α)) : List (List α) :=
  if 1 < cs.length ∧ (cs.getLastD []).length < 3 then
    cs.dropLast.dropLast ++ [cs.dropLast.getLastD [] ++ cs.getLastD []]
  else cs

/-- Ordering predicate for `Route.query.order_by(Route.id.asc())`. -/
def routeLE (a b : Route) : Prop := a.id ≤ b.id

instance : DecidableRel routeLE := fun a b => Nat.decLe a.id b.id

/-- Source: `Route.query.order_by(Route.id.asc()).all()`. -/
def sortRoutesById (rs : List Route) : List Route :=
  List.insertionSort routeLE rs

/-- Source: the team name format string over the running counter `k`. -/
def teamNameOf (k : Nat) : String := "Team " ++ toString k

/-- Source: round-robin `routes[i % len(routes)].id` (total via `get?`; the route list is
non-empty whenever the formation loop runs). -/
def routeIdFor (routes : List Route) (i : Nat) : Option Nat :=
  (routes.get? (i % routes.length)).map Route.id

/-- One iteration of the formation loop: create the team row (column
defaults `score=0`, `current_poi_id=None`, `is_finished=False`; the loop
sets `route_step_index = 0` and the round-robin route), attach every
group member by setting `u.team = new_team`, and seed the first POI via
`assign_next_poi`. -/
def formOne (w : World) (name : String) (rid : Option Nat)
    (group : List User) : World :=
  let t0 : Team := { id := w.next_team_id, name := name, score := 0,
                     route_id := rid, route_step_index := 0,
                     current_poi_id := none, is_finished := false }
  let users' := w.users.map (fun u =>
    if group.any (fun g => g.id = u.id) then { u with team_id := some t0.id } else u)
  let r := assign_next_poi t0 w.db
  { users := users', teams := w.teams ++ [r.1], routes := w.routes,
    db := r.2, next_team_id := w.next_team_id + 1 }

/-- Source: the formation loop over `enumerate(chunks)` starting at index `i`. -/
def formGroups (w : World) (base : Nat) (routes : List Route) (i : Nat) :
    List (List User) → World
  | [] => w
  | g :: gs =>
    formGroups (formOne w (teamNameOf (base + i + 1)) (routeIdFor routes i) g)
      base routes (i + 1) gs

/-- Source: `users = User.query.filter_by(is_admin=False).all();
ungrouped = [u for u in users if not u.team_id]`. -/
def ungroupedUsers (w : World) : List User :=
  (w.users.filter (fun u => !u.is_admin)).filter (fun u => u.team_id.isNone)

/-- The `/admin/generate_teams` handler below the auth boundary.  The
ambient `random.shuffle` is passed in as the `shuffle` argument (the spec
asks for the bucketing to be a pure function of the shuffled list).
Returns the new world and `some (number of teams created)`, or `none`
when a precondition fails and an error is flashed instead. -/
def admin_generate_teams (shuffle : List User → List User) (w : World) :
    World × Option Nat :=
  let ungrouped := ungroupedUsers w
  if ungrouped.isEmpty then (w, none)
  else if w.routes.isEmpty then (w, none)
  else
    let routes := sortRoutesById w.routes
    let cs := mergeSmallLast (chunks4 (shuffle ungrouped))
    (formGroups w w.teams.length routes 0 cs, some cs.length)

/-- Whether the team's cursor has reached or passed the end of its route
(`False` when no route is assigned). -/
def routeDone (db : DB) (team : Team) : Bool :=
  match team.route_id with
  | none => false
  | some rid => decide ((routeSteps db rid).length ≤ team.route_step_index)

/-- The spec's Team invariant: `is_finished` iff the route is assigned and
exhausted; when finished the current-POI pointer is null; otherwise
exactly one of {current POI set, no route assigned} holds. -/
def teamInvariant (db : DB) (team : Team) : Bool :=
  (team.is_finished == routeDone db team) &&
  (!team.is_finished || team.current_poi_id.isNone) &&
  (team.is_finished || (team.current_poi_id.isSome == team.route_id.isSome))

/-! ## Lemmas about the progress-row helpers -/

theorem findProgress_append (l : List TeamPOIProgress) (x : TeamPOIProgress)
    (tid pid : Nat) :
    findProgress (l ++ [x]) tid pid =
      match findProgress l tid pid with
      | some p => some p
      | none => if x.team_id = tid ∧ x.poi_id = pid then some x else none := by
  induction l with
  | nil => simp [findProgress]
  | cons p ps ih =>
    by_cases h : p.team_id = tid ∧ p.poi_id = pid <;>
      simp [findProgress, h, ih]

theorem findProgress_updateFirst (f : TeamPOIProgress → TeamPOIProgress)
    (hf : ∀ p, (f p).team_id = p.team_id ∧ (f p).poi_id = p.poi_id)
    (l : List TeamPOIProgress) (tid pid : Nat) :
    findProgress (updateFirst f l tid pid) tid pid =
      (findProgress l tid pid).map f := by
  induction l with
  | nil => simp [findProgress, updateFirst]
  | cons p ps ih =>
    by_cases h : p.team_id = tid ∧ p.poi_id = pid
    · simp [updateFirst, findProgress, h, (hf p).1, (hf p).2]
    · simp [updateFirst, findProgress, h, ih]

theorem findProgress_updateFirst_other (f : TeamPOIProgress → TeamPOIProgress)
    (hf : ∀ p, (f p).team_id = p.team_id ∧ (f p).poi_id = p.poi_id)
    (l : List TeamPOIProgress) (tid pid tid' pid' : Nat)
    (h : ¬(tid' = tid ∧ pid' = pid)) :
    findProgress (updateFirst f l tid pid) tid' pid' =
      findProgress l tid' pid' := by
  induction l with
  | nil => simp [updateFirst]
  | cons p ps ih =>
    rw [updateFirst]
    by_cases h1 : p.team_id = tid ∧ p.poi_id = pid
    · have h2 : ¬(p.team_id = tid' ∧ p.poi_id = pid') :=
        fun hc => h ⟨hc.1.symm.trans h1.1, hc.2.symm.trans h1.2⟩
      have h3 : ¬((f p).team_id = tid' ∧ (f p).poi_id = pid') := by
        rw [(hf p).1, (hf p).2]; exact h2
      rw [if_pos h1]
      simp only [findProgress, if_neg h2, if_neg h3]
    · rw [if_neg h1]
      simp only [findProgress]
      by_cases h2 : p.team_id = tid' ∧ p.poi_id = pid'
      · rw [if_pos h2, if_pos h2]
      · rw [if_neg h2, if_neg h2, ih]

theorem findProgress_lazyInit_self (l : List TeamPOIProgress) (tid pid : Nat) :
    findProgress (lazyInit l tid pid) tid pid =
      some ((findProgress l tid pid).getD (mkProgress tid pid)) := by
  cases h : findProgress l tid pid <;>
    simp [lazyInit, h, findProgress_append, mkProgress]

theorem findProgress_lazyInit_other (l : List TeamPOIProgress)
    (tid pid tid' pid' : Nat) (h : ¬(tid' = tid ∧ pid' = pid)) :
    findProgress (lazyInit l tid pid) tid' pid' = findProgress l tid' pid' := by
  cases h0 : findProgress l tid pid with
  | some p => simp [lazyInit, h0]
  | none =>
    have : ¬((mkProgress tid pid).team_id = tid' ∧ (mkProgress tid pid).poi_id = pid') := by
      simp only [mkProgress]
      rintro ⟨rfl, rfl⟩; exact h ⟨rfl, rfl⟩
    simp only [lazyInit, h0, Option.isSome_none, Bool.false_eq_true, if_false,
      findProgress_append, if_neg this]
    cases hq : findProgress l tid' pid' <;> simp [hq]

theorem hintsOfList_lazyInit (l : List TeamPOIProgress) (tid pid tid' pid' : Nat) :
    hintsOfList (lazyInit l tid pid) tid' pid' = hintsOfList l tid' pid' := by
  by_cases h : tid' = tid ∧ pid' = pid
  · obtain ⟨rfl, rfl⟩ := h
    rw [hintsOfList, findProgress_lazyInit_self]
    cases h0 : findProgress l tid' pid' <;> simp [hintsOfList, h0, mkProgress]
  · rw [hintsOfList, findProgress_lazyInit_other l tid pid tid' pid' h, hintsOfList]

theorem hintsOfList_lazyInit_self (l : List TeamPOIProgress) (tid pid : Nat) :
    hintsOfList (lazyInit l tid pid) tid pid = hintsOfList l tid pid :=
  hintsOfList_lazyInit l tid pid tid pid

theorem hintsOfList_updateFirst (f : TeamPOIProgress → TeamPOIProgress)
    (hf : ∀ p, (f p).team_id = p.team_id ∧ (f p).poi_id = p.poi_id ∧
      (f p).hints_used = p.hints_used)
    (l : List TeamPOIProgress) (tid pid tid' pid' : Nat) :
    hintsOfList (updateFirst f l tid pid) tid' pid' = hintsOfList l tid' pid' := by
  have hf' : ∀ p, (f p).team_id = p.team_id ∧ (f p).poi_id = p.poi_id :=
    fun p => ⟨(hf p).1, (hf p).2.1⟩
  by_cases h : tid' = tid ∧ pid' = pid
  · obtain ⟨rfl, rfl⟩ := h
    rw [hintsOfList, findProgress_updateFirst f hf']
    cases h0 : findProgress l tid' pid' <;> simp [hintsOfList, h0, (hf _).2.2]
  · rw [hintsOfList, findProgress_updateFirst_other f hf' l tid pid tid' pid' h,
      hintsOfList]

/-! ## Preservation lemmas for the engine operations -/

theorem routeSteps_congr {db1 db2 : DB} (h : db1.steps = db2.steps) (rid : Nat) :
    routeSteps db1 rid = routeSteps db2 rid := by
  simp [routeSteps, h]

theorem routeSteps_set_progress (db : DB) (l : List TeamPOIProgress) (rid : Nat) :
    routeSteps { db with progress := l } rid = routeSteps db rid := rfl

theorem lazyInit_of_isSome {l : List TeamPOIProgress} {tid pid : Nat}
    (h : (findProgress l tid pid).isSome = true) : lazyInit l tid pid = l := by
  rw [lazyInit, if_pos h]

theorem lazyInit_lazyInit (l : List TeamPOIProgress) (tid pid : Nat) :
    lazyInit (lazyInit l tid pid) tid pid = lazyInit l tid pid := by
  apply lazyInit_of_isSome
  rw [findProgress_lazyInit_self]
  rfl

/-- Branch equation: no route assigned. -/
theorem assign_next_poi_none (t : Team) (db : DB) (hr : t.route_id = none) :
    assign_next_poi t db = ({ t with current_poi_id := none, is_finished := false }, db) := by
  rw [assign_next_poi]; simp only [hr]

/-- Branch equation: route exhausted. -/
theorem assign_next_poi_done (t : Team) (db : DB) (rid : Nat)
    (hr : t.route_id = some rid)
    (hc : (routeSteps db rid).length ≤ t.route_step_index) :
    assign_next_poi t db = ({ t with current_poi_id := none, is_finished := true }, db) := by
  rw [assign_next_poi]; simp only [hr]; rw [if_pos hc]

/-- Branch equation: a next step exists. -/
theorem assign_next_poi_active (t : Team) (db : DB) (rid : Nat)
    (hr : t.route_id = some rid)
    (hc : ¬ (routeSteps db rid).length ≤ t.route_step_index) :
    assign_next_poi t db = ({ t with current_poi_id := some ((routeSteps db rid).getD t.route_step_index ⟨0, 0, 0⟩).poi_id, is_finished := false }, { db with progress := lazyInit db.progress t.id ((routeSteps db rid).getD t.route_step_index ⟨0, 0, 0⟩).poi_id }) := by
  rw [assign_next_poi]; simp only [hr]; rw [if_neg hc]

theorem assign_next_poi_steps (t : Team) (db : DB) :
    (assign_next_poi t db).2.steps = db.steps := by
  cases hr : t.route_id <;> simp [assign_next_poi, hr] <;> split <;> simp

theorem assign_next_poi_pois (t : Team) (db : DB) :
    (assign_next_poi t db).2.pois = db.pois := by
  cases hr : t.route_id <;> simp [assign_next_poi, hr] <;> split <;> simp

theorem assign_next_poi_subs (t : Team) (db : DB) :
    (assign_next_poi t db).2.subs = db.subs := by
  cases hr : t.route_id <;> simp [assign_next_poi, hr] <;> split <;> simp

theorem assign_next_poi_route_id (t : Team) (db : DB) :
    (assign_next_poi t db).1.route_id = t.route_id := by
  cases hr : t.route_id <;> simp [assign_next_poi, hr] <;> split <;> simp

theorem assign_next_poi_score (t : Team) (db : DB) :
    (assign_next_poi t db).1.score = t.score := by
  cases hr : t.route_id <;> simp [assign_next_poi, hr] <;> split <;> simp

theorem assign_next_poi_idx (t : Team) (db : DB) :
    (assign_next_poi t db).1.route_step_index = t.route_step_index := by
  cases hr : t.route_id <;> simp [assign_next_poi, hr] <;> split <;> simp

theorem assign_next_poi_team_id (t : Team) (db : DB) :
    (assign_next_poi t db).1.id = t.id := by
  cases hr : t.route_id <;> simp [assign_next_poi, hr] <;> split <;> simp

theorem assign_next_poi_fst_congr {db1 db2 : DB} (t : Team)
    (h : db1.steps = db2.steps) :
    (assign_next_poi t db1).1 = (assign_next_poi t db2).1 := by
  cases hr : t.route_id with
  | none => simp [assign_next_poi, hr]
  | some rid =>
    rw [assign_next_poi, assign_next_poi]
    simp only [hr, routeSteps_congr h rid]
    by_cases hc : (routeSteps db2 rid).length ≤ t.route_step_index <;> simp [hc]

theorem hintsUsed_assign (t : Team) (db : DB) (tid pid : Nat) :
    hintsUsed (assign_next_poi t db).2 tid pid = hintsUsed db tid pid := by
  cases hr : t.route_id with
  | none => simp [assign_next_poi, hr]
  | some rid =>
    rw [assign_next_poi]
    simp only [hr]
    split
    · rfl
    · simp [hintsUsed, hintsOfList_lazyInit]

/-! ## Lemmas about `complete_current_poi` -/

theorem complete_current_poi_award (now : Nat) (t : Team) (poi : POI) (db : DB) :
    (complete_current_poi now t poi db).1 =
      max 0 (pyIntOr poi.points 0 - 2 * (hintsUsed db t.id poi.id : Int)) := by
  rw [complete_current_poi]
  simp only [hintsOfList_lazyInit_self]
  rw [hintsUsed, Int.mul_comm]

theorem complete_current_poi_score (now : Nat) (t : Team) (poi : POI) (db : DB) :
    (complete_current_poi now t poi db).2.1.score =
      t.score + (complete_current_poi now t poi db).1 := by
  rw [complete_current_poi]
  simp only [assign_next_poi_score]

theorem complete_current_poi_idx (now : Nat) (t : Team) (poi : POI) (db : DB) :
    (complete_current_poi now t poi db).2.1.route_step_index =
      t.route_step_index + 1 := by
  rw [complete_current_poi]
  simp only [assign_next_poi_idx]

theorem complete_current_poi_award_nonneg (now : Nat) (t : Team) (poi : POI)
    (db : DB) : 0 ≤ (complete_current_poi now t poi db).1 := by
  rw [complete_current_poi_award]
  exact le_max_left 0 _

theorem complete_current_poi_hints (now : Nat) (t : Team) (poi : POI) (db : DB)
    (tid pid : Nat) :
    hintsUsed (complete_current_poi now t poi db).2.2 tid pid =
      hintsUsed db tid pid := by
  rw [complete_current_poi]
  simp only [hintsUsed_assign]
  rw [hintsUsed, hintsUsed]
  dsimp only
  rw [hintsOfList_updateFirst
    (fun p => { p with status := "completed", completed_at := some now })
    (fun p => ⟨rfl, rfl, rfl⟩)]
  exact hintsOfList_lazyInit db.progress t.id poi.id tid pid

theorem complete_current_poi_steps (now : Nat) (t : Team) (poi : POI) (db : DB) :
    (complete_current_poi now t poi db).2.2.steps = db.steps := by
  rw [complete_current_poi]
  simp only [assign_next_poi_steps]

theorem complete_current_poi_team_id (now : Nat) (t : Team) (poi : POI) (db : DB) :
    (complete_current_poi now t poi db).2.1.id = t.id := by
  rw [complete_current_poi]
  simp only [assign_next_poi_team_id]

/-! ## The team invariant -/

theorem teamInvariant_congr {db1 db2 : DB} (h : db1.steps = db2.steps)
    (t : Team) : teamInvariant db1 t = teamInvariant db2 t := by
  have : routeDone db1 t = routeDone db2 t := by
    cases hr : t.route_id <;> simp [routeDone, hr, routeSteps_congr h]
  rw [teamInvariant, teamInvariant, this]

theorem teamInvariant_assign (t : Team) (db : DB) :
    teamInvariant (assign_next_poi t db).2 (assign_next_poi t db).1 = true := by
  cases hr : t.route_id with
  | none => rw [assign_next_poi_none t db hr]; simp [teamInvariant, routeDone, hr]
  | some rid =>
    by_cases hc : (routeSteps db rid).length ≤ t.route_step_index
    · rw [assign_next_poi_done t db rid hr hc]
      simp [teamInvariant, routeDone, hr, hc]
    · rw [assign_next_poi_active t db rid hr hc]
      simp [teamInvariant, routeDone, hr, hc, routeSteps_set_progress]

theorem teamInvariant_complete (now : Nat) (t : Team) (poi : POI) (db : DB) :
    teamInvariant (complete_current_poi now t poi db).2.2
      (complete_current_poi now t poi db).2.1 = true := by
  rw [complete_current_poi]
  exact teamInvariant_assign _ _

theorem request_hint_steps (t : Team) (db : DB) :
    (request_hint t db).steps = db.steps := by
  cases hc : t.current_poi_id with
  | none => simp [request_hint, hc]
  | some pid =>
    cases hp : findPOI db.pois pid with
    | none => simp [request_hint, hc, hp]
    | some q =>
      simp only [request_hint, hc, hp]
      split <;> rfl

theorem request_hint_pois (t : Team) (db : DB) :
    (request_hint t db).pois = db.pois := by
  cases hc : t.current_poi_id with
  | none => simp [request_hint, hc]
  | some pid =>
    cases hp : findPOI db.pois pid with
    | none => simp [request_hint, hc, hp]
    | some q =>
      simp only [request_hint, hc, hp]
      split <;> rfl

theorem teamInvariant_request_hint (t : Team) (db : DB)
    (h : teamInvariant db t = true) :
    teamInvariant (request_hint t db) t = true := by
  rw [teamInvariant_congr (request_hint_steps t db) t]
  exact h

/-! ## Lemmas about `request_hint` -/

theorem hintsOfList_bump (l : List TeamPOIProgress) (tid pid : Nat) :
    hintsOfList (updateFirst (fun p => { p with hints_used := p.hints_used + 1 })
      (lazyInit l tid pid) tid pid) tid pid = hintsOfList l tid pid + 1 := by
  rw [hintsOfList, findProgress_updateFirst
    (fun p => { p with hints_used := p.hints_used + 1 }) (fun p => ⟨rfl, rfl⟩),
    findProgress_lazyInit_self]
  cases h : findProgress l tid pid <;> simp [hintsOfList, h, mkProgress]

theorem request_hint_hints (t : Team) (db : DB) (pid : Nat) (q : POI)
    (hc : t.current_poi_id = some pid) (hp : findPOI db.pois pid = some q) :
    hintsUsed (request_hint t db) t.id pid =
      if hintsUsed db t.id pid < 3 then hintsUsed db t.id pid + 1
      else hintsUsed db t.id pid := by
  simp only [request_hint, hc, hp]
  by_cases hh : hintsOfList (lazyInit db.progress t.id pid) t.id pid < 3
  · rw [if_pos hh]
    have hlt : hintsUsed db t.id pid < 3 := by
      rwa [hintsOfList_lazyInit_self] at hh
    rw [hintsUsed]
    dsimp only
    rw [hintsOfList_bump, if_pos hlt]
    rfl
  · rw [if_neg hh]
    have hge : ¬ hintsUsed db t.id pid < 3 := by
      rwa [hintsOfList_lazyInit_self] at hh
    rw [hintsUsed]
    dsimp only
    rw [hintsOfList_lazyInit_self, if_neg hge]
    rfl

/-! ## Branch equations for `submit_proof` -/

theorem submit_proof_cases (now : Nat) (t : Team) (req : Request) (db : DB) :
    submit_proof now t req db = (t, db) ∨
    ∃ pid poi ty content, t.current_poi_id = some pid ∧
      findPOI db.pois pid = some poi ∧
      submit_proof now t req db = record_and_complete now t poi ty content db := by
  cases hc : t.current_poi_id with
  | none => left; simp [submit_proof, hc]
  | some pid =>
    cases hp : findPOI db.pois pid with
    | none => left; simp [submit_proof, hc, hp]
    | some poi =>
      by_cases hphoto : poi.completion_type = "photo"
      · cases hf : req.proof_file with
        | none => left; simp [submit_proof, hc, hp, hphoto, hf]
        | some fname =>
          by_cases h1 : fname = ""
          · left; simp [submit_proof, hc, hp, hphoto, hf, h1]
          · by_cases h2 : secure_filename fname = ""
            · left; simp [submit_proof, hc, hp, hphoto, hf, h1, h2]
            · by_cases h3 : allowed_image_filename (secure_filename fname) = true
              · right
                refine ⟨pid, poi, "photo", "team" ++ toString t.id ++ "_poi" ++ toString poi.id ++ "_" ++ toString now ++ py_lower (path_suffix (secure_filename fname)), rfl, hp, ?_⟩
                simp [submit_proof, hc, hp, hphoto, hf, h1, h2, h3]
              · left; simp [submit_proof, hc, hp, hphoto, hf, h1, h2, h3]
      · by_cases hacc : py_lower (py_strip (poi.answer_key.getD "")) ≠ "" ∧
          py_lower (py_strip (req.proof_text.getD "")) =
            py_lower (py_strip (poi.answer_key.getD ""))
        · right
          refine ⟨pid, poi, "text", py_lower (py_strip (req.proof_text.getD "")), rfl, hp, ?_⟩
          simp only [submit_proof, hc, hp, if_neg hphoto]
          rw [if_pos hacc]
        · left
          simp only [submit_proof, hc, hp, if_neg hphoto]
          rw [if_neg hacc]

theorem submit_proof_text_reject (now : Nat) (t : Team) (req : Request) (db : DB)
    (pid : Nat) (poi : POI)
    (hc : t.current_poi_id = some pid) (hp : findPOI db.pois pid = some poi)
    (hphoto : poi.completion_type ≠ "photo")
    (hrej : ¬ (py_lower (py_strip (poi.answer_key.getD "")) ≠ "" ∧
      py_lower (py_strip (req.proof_text.getD "")) =
        py_lower (py_strip (poi.answer_key.getD "")))) :
    submit_proof now t req db = (t, db) := by
  simp only [submit_proof, hc, hp, if_neg hphoto]
  rw [if_neg hrej]

theorem submit_proof_text_accept (now : Nat) (t : Team) (req : Request) (db : DB)
    (pid : Nat) (poi : POI)
    (hc : t.current_poi_id = some pid) (hp : findPOI db.pois pid = some poi)
    (hphoto : poi.completion_type ≠ "photo")
    (hacc : py_lower (py_strip (poi.answer_key.getD "")) ≠ "" ∧
      py_lower (py_strip (req.proof_text.getD "")) =
        py_lower (py_strip (poi.answer_key.getD ""))) :
    submit_proof now t req db = record_and_complete now t poi "text"
      (py_lower (py_strip (req.proof_text.getD ""))) db := by
  simp only [submit_proof, hc, hp, if_neg hphoto]
  rw [if_pos hacc]

/-! ## Chunking combinatorics for team formation -/

theorem getLastD_mem_of_ne_nil {β : Type u} :
    ∀ (l : List β) (d : β), l ≠ [] → l.getLastD d ∈ l
  | [], _, h => absurd rfl h
  | [a], _, _ => by simp
  | a :: b :: t, d, _ => by
    rw [List.getLastD_cons]
    exact List.mem_cons_of_mem a (getLastD_mem_of_ne_nil (b :: t) a (by simp))

theorem mem_dropLast_or_eq_getLastD {β : Type u} :
    ∀ (l : List β) (d x : β), x ∈ l → x ∈ l.dropLast ∨ x = l.getLastD d
  | [], _, _, h => absurd h (by simp)
  | [a], _, x, h => by
    simp only [List.mem_singleton] at h
    right; simp [h]
  | a :: b :: t, d, x, h => by
    rw [List.getLastD_cons, List.dropLast_cons₂]
    rcases List.mem_cons.1 h with rfl | h2
    · left; exact List.mem_cons_self x _
    · rcases mem_dropLast_or_eq_getLastD (b :: t) a x h2 with h3 | h3
      · left; exact List.mem_cons_of_mem a h3
      · right; exact h3

theorem chunks4_flatten : ∀ (l : List α), (chunks4 l).flatten = l
  | [] => rfl
  | [_] => rfl
  | [_, _] => rfl
  | [_, _, _] => rfl
  | a :: b :: c :: d :: rest => by
    simp [chunks4, chunks4_flatten rest]

theorem chunks4_ne_nil : ∀ (l : List α), l ≠ [] → chunks4 l ≠ []
  | [], h => absurd rfl h
  | [_], _ => by simp [chunks4]
  | [_, _], _ => by simp [chunks4]
  | [_, _, _], _ => by simp [chunks4]
  | _ :: _ :: _ :: _ :: _, _ => by simp [chunks4]

theorem chunks4_dropLast_length :
    ∀ (l : List α), ∀ g ∈ (chunks4 l).dropLast, g.length = 4
  | [] => by simp [chunks4]
  | [_] => by simp [chunks4]
  | [_, _] => by simp [chunks4]
  | [_, _, _] => by simp [chunks4]
  | a :: b :: c :: d :: rest => by
    intro g hg
    rw [chunks4] at hg
    cases hrest : chunks4 rest with
    | nil => rw [hrest] at hg; simp at hg
    | cons y ys =>
      rw [hrest, List.dropLast_cons₂] at hg
      rcases List.mem_cons.1 hg with rfl | h2
      · rfl
      · exact chunks4_dropLast_length rest g (by rw [hrest]; exact h2)

/-- Helper: `chunkSizes n` is the length profile of `chunks4` on a list of `n`
elements. -/
def chunkSizes : Nat → List Nat
  | 0 => []
  | 1 => [1]
  | 2 => [2]
  | 3 => [3]
  | n + 4 => 4 :: chunkSizes n

theorem chunks4_map_length : ∀ (l : List α), (chunks4 l).map List.length = chunkSizes l.length
  | [] => rfl
  | [_] => rfl
  | [_, _] => rfl
  | [_, _, _] => rfl
  | a :: b :: c :: d :: rest => by
    show 4 :: (chunks4 rest).map List.length = chunkSizes (rest.length + 4)
    rw [chunks4_map_length rest]
    rfl

theorem mergeSmallLast_sizes (l : List α) (h3 : 3 ≤ l.length) :
    ∀ g ∈ mergeSmallLast (chunks4 l), 3 ≤ g.length := by
  intro g hg
  rw [mergeSmallLast] at hg
  split_ifs at hg with hcond
  · obtain ⟨hlen, _⟩ := hcond
    rcases List.mem_append.1 hg with hg1 | hg2
    · have hmem : g ∈ (chunks4 l).dropLast :=
        (List.dropLast_sublist (chunks4 l).dropLast).subset hg1
      have h4 := chunks4_dropLast_length l g hmem
      omega
    · have hgeq : g = (chunks4 l).dropLast.getLastD [] ++ (chunks4 l).getLastD [] := by
        simpa using hg2
      have hne : (chunks4 l).dropLast ≠ [] := by
        intro hx
        have := List.length_dropLast (chunks4 l)
        rw [hx] at this
        simp at this
        omega
      have hmem := getLastD_mem_of_ne_nil ((chunks4 l).dropLast) [] hne
      have h4 := chunks4_dropLast_length l _ hmem
      rw [hgeq, List.length_append, h4]
      omega
  · have hne : chunks4 l ≠ [] := by
      apply chunks4_ne_nil
      intro hx; rw [hx] at h3; simp at h3
    by_cases hone : (chunks4 l).length ≤ 1
    · have h1 : (chunks4 l).length = 1 := by
        have := List.length_pos.2 hne
        omega
      obtain ⟨g0, hg0⟩ := List.length_eq_one.1 h1
      rw [hg0] at hg
      simp only [List.mem_singleton] at hg
      subst hg
      have : g = l := by
        have hj := chunks4_flatten l
        rw [hg0] at hj
        simpa using hj
      rw [this]; exact h3
    · have hlast3 : ¬ ((chunks4 l).getLastD []).length < 3 := by
        intro hx; exact hcond ⟨by omega, hx⟩
      rcases mem_dropLast_or_eq_getLastD (chunks4 l) [] g hg with h2 | h2
      · have h4 := chunks4_dropLast_length l g h2
        omega
      · rw [h2]; omega

/-! ## Team-formation fold lemmas -/

/-- The `Team` row as persisted right after the formation loop seeds a fresh
team via `assign_next_poi`. -/
def seededTeam (db : DB) (tid : Nat) (nm : String) (rid : Option Nat) : Team :=
  (assign_next_poi { id := tid, name := nm, score := 0, route_id := rid, route_step_index := 0, current_poi_id := none, is_finished := false } db).1

theorem seededTeam_congr {db1 db2 : DB} (h : db1.steps = db2.steps)
    (tid : Nat) (nm : String) (rid : Option Nat) :
    seededTeam db1 tid nm rid = seededTeam db2 tid nm rid :=
  assign_next_poi_fst_congr _ h

theorem seededTeam_route_id (db : DB) (tid : Nat) (nm : String)
    (rid : Option Nat) : (seededTeam db tid nm rid).route_id = rid :=
  assign_next_poi_route_id _ db

theorem formOne_steps (w : World) (nm : String) (rid : Option Nat)
    (g : List User) : (formOne w nm rid g).db.steps = w.db.steps :=
  assign_next_poi_steps _ w.db

theorem formOne_teams (w : World) (nm : String) (rid : Option Nat)
    (g : List User) :
    (formOne w nm rid g).teams = w.teams ++ [seededTeam w.db w.next_team_id nm rid] := rfl

theorem formOne_next (w : World) (nm : String) (rid : Option Nat)
    (g : List User) : (formOne w nm rid g).next_team_id = w.next_team_id + 1 := rfl

theorem formOne_users (w : World) (nm : String) (rid : Option Nat)
    (g : List User) :
    (formOne w nm rid g).users = w.users.map (fun u =>
      if g.any (fun x => x.id = u.id) then { u with team_id := some w.next_team_id }
      else u) := rfl

theorem formGroups_steps (b : Nat) (rs : List Route) :
    ∀ (gs : List (List User)) (w : World) (i : Nat),
    (formGroups w b rs i gs).db.steps = w.db.steps
  | [], _, _ => rfl
  | g :: gs, w, i => by
    rw [formGroups, formGroups_steps b rs gs _ (i + 1), formOne_steps]

theorem formGroups_next (b : Nat) (rs : List Route) :
    ∀ (gs : List (List User)) (w : World) (i : Nat),
    (formGroups w b rs i gs).next_team_id = w.next_team_id + gs.length
  | [], _, _ => rfl
  | g :: gs, w, i => by
    rw [formGroups, formGroups_next b rs gs _ (i + 1), formOne_next]
    simp only [List.length_cons]
    omega

theorem formGroups_teams (b : Nat) (rs : List Route) :
    ∀ (gs : List (List User)) (w : World) (i : Nat),
    (formGroups w b rs i gs).teams =
      w.teams ++ (List.range gs.length).map (fun j =>
        seededTeam w.db (w.next_team_id + j) (teamNameOf (b + i + j + 1))
          (routeIdFor rs (i + j)))
  | [], _, _ => by simp [formGroups]
  | g :: gs, w, i => by
    rw [formGroups, formGroups_teams b rs gs _ (i + 1)]
    rw [formOne_teams, formOne_next]
    have hsteps : (formOne w (teamNameOf (b + i + 1)) (routeIdFor rs i) g).db.steps = w.db.steps :=
      formOne_steps w _ _ g
    rw [List.map_congr_left (fun j _ => seededTeam_congr hsteps (w.next_team_id + 1 + j) (teamNameOf (b + (i + 1) + j + 1)) (routeIdFor rs ((i + 1) + j)))]
    rw [List.length_cons, List.range_succ_eq_map, List.map_cons, List.map_map]
    rw [List.append_assoc, List.singleton_append]
    congr 1
    congr 1
    apply List.map_congr_left
    intro j _
    show seededTeam w.db (w.next_team_id + 1 + j) (teamNameOf (b + (i + 1) + j + 1)) (routeIdFor rs ((i + 1) + j)) = seededTeam w.db (w.next_team_id + (j + 1)) (teamNameOf (b + i + (j + 1) + 1)) (routeIdFor rs (i + (j + 1)))
    have e1 : w.next_team_id + 1 + j = w.next_team_id + (j + 1) := by omega
    have e2 : b + (i + 1) + j + 1 = b + i + (j + 1) + 1 := by omega
    have e3 : i + 1 + j = i + (j + 1) := by omega
    rw [e1, e2, e3]

theorem formGroups_users_ids (b : Nat) (rs : List Route) :
    ∀ (gs : List (List User)) (w : World) (i : Nat),
    (formGroups w b rs i gs).users.map User.id = w.users.map User.id
  | [], _, _ => rfl
  | g :: gs, w, i => by
    rw [formGroups, formGroups_users_ids b rs gs _ (i + 1), formOne_users,
      List.map_map]
    apply List.map_congr_left
    intro u _
    simp only [Function.comp]
    split <;> rfl

theorem mergeSmallLast_cons₂ (c a b : List α) (l : List (List α)) :
    mergeSmallLast (c :: a :: b :: l) = c :: mergeSmallLast (a :: b :: l) := by
  rw [mergeSmallLast, mergeSmallLast]
  have e1 : (c :: a :: b :: l).getLastD [] = (a :: b :: l).getLastD [] := by
    simp [List.getLastD_cons]
  rw [e1]
  have hlen1 : 1 < (c :: a :: b :: l).length := by simp
  have hlen2 : 1 < (a :: b :: l).length := by simp
  by_cases hlast : ((a :: b :: l).getLastD []).length < 3
  · rw [if_pos ⟨hlen1, hlast⟩, if_pos ⟨hlen2, hlast⟩]
    simp [List.getLastD_cons]
  · rw [if_neg (by rintro ⟨-, hx⟩; exact hlast hx),
      if_neg (by rintro ⟨-, hx⟩; exact hlast hx)]

theorem mergeSmallLast_flatten : ∀ (cs : List (List α)),
    (mergeSmallLast cs).flatten = cs.flatten
  | [] => rfl
  | [c] => by
    rw [mergeSmallLast]
    rw [if_neg (by rintro ⟨hx, -⟩; simp at hx)]
  | [c, d] => by
    rw [mergeSmallLast]
    split_ifs with h
    · simp
    · rfl
  | c :: a :: b :: l => by
    rw [mergeSmallLast_cons₂, List.flatten_cons, List.flatten_cons,
      mergeSmallLast_flatten (a :: b :: l)]

theorem admin_generate_teams_noop (shuffle : List User → List User) (w : World)
    (h : ungroupedUsers w = [] ∨ w.routes = []) :
    admin_generate_teams shuffle w = (w, none) := by
  rcases h with h | h
  · rw [admin_generate_teams, if_pos (by simp [h])]
  · by_cases hu : (ungroupedUsers w).isEmpty
    · rw [admin_generate_teams, if_pos hu]
    · rw [admin_generate_teams, if_neg hu, if_pos (by simp [h])]

theorem admin_generate_teams_run (shuffle : List User → List User) (w : World)
    (hne : ungroupedUsers w ≠ []) (hr : w.routes ≠ []) :
    admin_generate_teams shuffle w =
      (formGroups w w.teams.length (sortRoutesById w.routes) 0
          (mergeSmallLast (chunks4 (shuffle (ungroupedUsers w)))),
        some (mergeSmallLast (chunks4 (shuffle (ungroupedUsers w)))).length) := by
  rw [admin_generate_teams,
    if_neg (by simp only [List.isEmpty_iff]; exact hne),
    if_neg (by simp only [List.isEmpty_iff]; exact hr)]

theorem formOne_users_ids (w : World) (nm : String) (rid : Option Nat)
    (g : List User) :
    (formOne w nm rid g).users.map User.id = w.users.map User.id := by
  rw [formOne_users, List.map_map]
  apply List.map_congr_left
  intro u _
  simp only [Function.comp]
  split <;> rfl

/-- Counting users whose id lies in a duplicate-free group drawn from a
duplicate-free user table: the filter has exactly the group's size. -/
theorem length_filter_any_id (users g : List User)
    (hU : (users.map User.id).Nodup) (hG : (g.map User.id).Nodup)
    (hsub : ∀ x ∈ g, x.id ∈ users.map User.id) :
    (users.filter (fun u => g.any (fun x => x.id = u.id))).length = g.length := by
  have h2 : (users.filter ((fun a => g.any (fun x => x.id = a)) ∘ User.id)).length
      = ((users.map User.id).filter (fun a => g.any (fun x => x.id = a))).length := by
    rw [List.filter_map, List.length_map]
  have hperm : ((users.map User.id).filter (fun a => g.any (fun x => x.id = a))).Perm
      (g.map User.id) := by
    apply (List.perm_ext_iff_of_nodup (hU.filter _) hG).2
    intro a
    rw [List.mem_filter]
    constructor
    · rintro ⟨-, ha⟩
      rw [List.any_eq_true] at ha
      obtain ⟨x, hx, hxa⟩ := ha
      rw [decide_eq_true_iff] at hxa
      exact List.mem_map.2 ⟨x, hx, hxa⟩
    · intro ha
      obtain ⟨x, hx, hxa⟩ := List.mem_map.1 ha
      refine ⟨hxa ▸ hsub x hx, ?_⟩
      rw [List.any_eq_true]
      exact ⟨x, hx, by rw [decide_eq_true_iff]; exact hxa⟩
  calc (users.filter (fun u => g.any (fun x => x.id = u.id))).length
      = ((users.map User.id).filter (fun a => g.any (fun x => x.id = a))).length := h2
    _ = (g.map User.id).length := hperm.length_eq
    _ = g.length := List.length_map g User.id

/-- After `formGroups` runs over groups `gs`, the member count of any team id
older than every id it allocates is untouched, provided no user appearing
in `gs` was a member of that team. -/
theorem formGroups_count_stable (b : Nat) (rs : List Route) :
    ∀ (gs : List (List User)) (w : World) (i : Nat) (tid : Nat),
      tid < w.next_team_id →
      (∀ u ∈ w.users, u.id ∈ gs.flatten.map User.id → u.team_id ≠ some tid) →
      ((formGroups w b rs i gs).users.filter (fun u => u.team_id == some tid)).length =
        (w.users.filter (fun u => u.team_id == some tid)).length
  | [], _, _, _, _, _ => rfl
  | g :: gs, w, i, tid, hlt, hno => by
    rw [formGroups]
    have hlt' : tid < (formOne w (teamNameOf (b + i + 1)) (routeIdFor rs i) g).next_team_id := by
      rw [formOne_next]; omega
    have hno' : ∀ u ∈ (formOne w (teamNameOf (b + i + 1)) (routeIdFor rs i) g).users,
        u.id ∈ gs.flatten.map User.id → u.team_id ≠ some tid := by
      rw [formOne_users]
      intro u' hu' hmem
      obtain ⟨u, hu, rfl⟩ := List.mem_map.1 hu'
      by_cases hany : g.any (fun x => x.id = u.id)
      · rw [if_pos hany]
        simp only
        intro hx
        have := Option.some.inj hx
        omega
      · rw [if_neg hany]
        rw [if_neg hany] at hmem
        exact hno u hu (by
          rw [List.flatten_cons, List.map_append]
          exact List.mem_append_right _ hmem)
    rw [formGroups_count_stable b rs gs _ (i + 1) tid hlt' hno']
    rw [formOne_users, List.filter_map, List.length_map]
    apply congrArg List.length
    apply List.filter_congr
    intro u hu
    simp only [Function.comp]
    by_cases hany : g.any (fun x => x.id = u.id)
    · rw [if_pos hany]
      have h1 : ((some w.next_team_id : Option Nat) == some tid) = false := by
        rw [beq_eq_false_iff_ne]
        intro hx
        have := Option.some.inj hx
        omega
      have h2 : (u.team_id == some tid) = false := by
        rw [beq_eq_false_iff_ne]
        apply hno u hu
        rw [List.flatten_cons, List.map_append]
        apply List.mem_append_left
        rw [List.any_eq_true] at hany
        obtain ⟨x, hx, hxa⟩ := hany
        rw [decide_eq_true_iff] at hxa
        exact List.mem_map.2 ⟨x, hx, hxa⟩
      simp only
      rw [h1, h2]
    · rw [if_neg hany]

/-- Each group of the chunk list becomes the member set of exactly one new
team: team `j` (counting from the pre-existing team count) ends with
exactly `gs[j].length` members. -/
theorem formGroups_member_count (b : Nat) (rs : List Route) :
    ∀ (gs : List (List User)) (w : World) (i : Nat),
      (w.users.map User.id).Nodup →
      (∀ u ∈ w.users, ∀ tid, u.team_id = some tid → tid < w.next_team_id) →
      (gs.flatten.map User.id).Nodup →
      (∀ x ∈ gs.flatten, x.id ∈ w.users.map User.id) →
      ∀ j, (hj : j < gs.length) →
      ((formGroups w b rs i gs).users.filter
          (fun u => u.team_id == some (w.next_team_id + j))).length =
        (gs.get ⟨j, hj⟩).length
  | [], _, _, _, _, _, _, j, hj => absurd hj (by simp)
  | g :: gs, w, i, hU, hfresh, hGn, hsub, j, hj => by
    have hGg : (g.map User.id).Nodup := by
      rw [List.flatten_cons, List.map_append] at hGn
      exact hGn.of_append_left
    have hGgs : (gs.flatten.map User.id).Nodup := by
      rw [List.flatten_cons, List.map_append] at hGn
      exact hGn.of_append_right
    have hdisj : List.Disjoint (g.map User.id) (gs.flatten.map User.id) := by
      rw [List.flatten_cons, List.map_append] at hGn
      exact List.disjoint_of_nodup_append hGn
    have hsubg : ∀ x ∈ g, x.id ∈ w.users.map User.id := fun x hx =>
      hsub x (by rw [List.flatten_cons]; exact List.mem_append_left _ hx)
    rw [formGroups]
    match j with
    | 0 =>
      have hstable := formGroups_count_stable b rs gs
        (formOne w (teamNameOf (b + i + 1)) (routeIdFor rs i) g) (i + 1)
        (w.next_team_id + 0) (by rw [formOne_next]; omega) ?hno
      case hno =>
        rw [formOne_users]
        intro u' hu' hmem
        obtain ⟨u, hu, rfl⟩ := List.mem_map.1 hu'
        by_cases hany : g.any (fun x => x.id = u.id)
        · exfalso
          rw [if_pos hany] at hmem
          rw [List.any_eq_true] at hany
          obtain ⟨x, hx, hxa⟩ := hany
          rw [decide_eq_true_iff] at hxa
          exact hdisj (List.mem_map.2 ⟨x, hx, hxa⟩) hmem
        · rw [if_neg hany]
          intro hx
          have := hfresh u hu _ hx
          omega
      rw [hstable]
      rw [formOne_users, List.filter_map, List.length_map]
      have hcong : (w.users.filter
          ((fun u => u.team_id == some (w.next_team_id + 0)) ∘ (fun u =>
            if g.any (fun x => x.id = u.id) then { u with team_id := some w.next_team_id }
            else u))) =
          w.users.filter (fun u => g.any (fun x => x.id = u.id)) := by
        apply List.filter_congr
        intro u hu
        simp only [Function.comp]
        by_cases hany : g.any (fun x => x.id = u.id)
        · rw [if_pos hany, hany]
          simp
        · rw [if_neg hany]
          have hany' : g.any (fun x => x.id = u.id) = false := by
            rwa [Bool.not_eq_true] at hany
          rw [hany', beq_eq_false_iff_ne]
          intro hx
          have := hfresh u hu _ hx
          omega
      rw [hcong, length_filter_any_id w.users g hU hGg hsubg]
      rfl
    | j' + 1 =>
      have hU' : ((formOne w (teamNameOf (b + i + 1)) (routeIdFor rs i) g).users.map User.id).Nodup := by
        rw [formOne_users_ids]; exact hU
      have hfresh' : ∀ u ∈ (formOne w (teamNameOf (b + i + 1)) (routeIdFor rs i) g).users,
          ∀ tid, u.team_id = some tid →
            tid < (formOne w (teamNameOf (b + i + 1)) (routeIdFor rs i) g).next_team_id := by
        rw [formOne_users, formOne_next]
        intro u' hu' tid hx
        obtain ⟨u, hu, rfl⟩ := List.mem_map.1 hu'
        by_cases hany : g.any (fun x => x.id = u.id)
        · rw [if_pos hany] at hx
          simp only at hx
          have := Option.some.inj hx
          omega
        · rw [if_neg hany] at hx
          have := hfresh u hu _ hx
          omega
      have hsub' : ∀ x ∈ gs.flatten,
          x.id ∈ (formOne w (teamNameOf (b + i + 1)) (routeIdFor rs i) g).users.map User.id := by
        rw [formOne_users_ids]
        intro x hx
        exact hsub x (by rw [List.flatten_cons]; exact List.mem_append_right _ hx)
      have hrec := formGroups_member_count b rs gs
        (formOne w (teamNameOf (b + i + 1)) (routeIdFor rs i) g) (i + 1)
        hU' hfresh' hGgs hsub' j' (by
          rw [List.length_cons] at hj
          omega)
      rw [formOne_next] at hrec
      have harith : w.next_team_id + 1 + j' = w.next_team_id + (j' + 1) := by omega
      rw [harith] at hrec
      exact hrec

/-- Every team present after `formGroups` satisfies the invariant in the
final store, provided every pre-existing team did. -/
theorem formGroups_invariant (b : Nat) (rs : List Route) :
    ∀ (gs : List (List User)) (w : World) (i : Nat),
      (∀ t ∈ w.teams, teamInvariant w.db t = true) →
      ∀ t ∈ (formGroups w b rs i gs).teams,
        teamInvariant (formGroups w b rs i gs).db t = true
  | [], _, _, hw, t, ht => hw t ht
  | g :: gs, w, i, hw, t, ht => by
    rw [formGroups] at ht ⊢
    refine formGroups_invariant b rs gs _ (i + 1) ?_ t ht
    rw [formOne_teams]
    intro t' ht'
    rcases List.mem_append.1 ht' with h1 | h2
    · have hs : (formOne w (teamNameOf (b + i + 1)) (routeIdFor rs i) g).db.steps = w.db.steps :=
        formOne_steps w _ _ g
      rw [teamInvariant_congr hs t']
      exact hw t' h1
    · rw [List.mem_singleton] at h2
      subst h2
      exact teamInvariant_assign _ w.db

/-! ## Idempotence of `assign_next_poi` -/

theorem assign_next_poi_idem (t : Team) (db : DB) :
    assign_next_poi (assign_next_poi t db).1 (assign_next_poi t db).2 =
      assign_next_poi t db := by
  cases hr : t.route_id with
  | none =>
    rw [assign_next_poi_none t db hr]
    dsimp only
    rw [assign_next_poi_none ({ t with current_poi_id := none, is_finished := false }) db hr]
  | some rid =>
    by_cases hc : (routeSteps db rid).length ≤ t.route_step_index
    · rw [assign_next_poi_done t db rid hr hc]
      dsimp only
      rw [assign_next_poi_done ({ t with current_poi_id := none, is_finished := true }) db rid hr hc]
    · rw [assign_next_poi_active t db rid hr hc]
      dsimp only
      rw [assign_next_poi_active ({ t with current_poi_id := some ((routeSteps db rid).getD t.route_step_index ⟨0, 0, 0⟩).poi_id, is_finished := false }) ({ db with progress := lazyInit db.progress t.id ((routeSteps db rid).getD t.route_step_index ⟨0, 0, 0⟩).poi_id }) rid hr hc]
      simp [routeSteps_set_progress, lazyInit_lazyInit]

/-! ## Claim theorems -/

/-- C1: after any engine operation (`assign_next_poi`, `complete_current_poi`,
`request_hint`, team formation) every touched team satisfies the invariant:
`is_finished` is true iff the team has a route whose step count is at most
`route_step_index`; when finished the current-POI pointer is null; otherwise
exactly one of {current POI set, no route assigned} holds.  `request_hint`
never writes the team row, so it preserves the invariant; formation
establishes it for every new team and preserves it for the old ones. -/
theorem c1_engine_invariant :
    (∀ (team : Team) (db : DB),
        teamInvariant (assign_next_poi team db).2 (assign_next_poi team db).1 = true)
    ∧ (∀ (now : Nat) (team : Team) (poi : POI) (db : DB),
        teamInvariant (complete_current_poi now team poi db).2.2
          (complete_current_poi now team poi db).2.1 = true)
    ∧ (∀ (team : Team) (db : DB), teamInvariant db team = true →
        teamInvariant (request_hint team db) team = true)
    ∧ (∀ (shuffle : List User → List User) (w : World),
        (∀ t ∈ w.teams, teamInvariant w.db t = true) →
        ∀ t ∈ (admin_generate_teams shuffle w).1.teams,
          teamInvariant (admin_generate_teams shuffle w).1.db t = true) := by
  refine ⟨teamInvariant_assign, teamInvariant_complete, teamInvariant_request_hint, ?_⟩
  intro shuffle w hw t ht
  by_cases h1 : ungroupedUsers w = [] ∨ w.routes = []
  · rw [admin_generate_teams_noop shuffle w h1] at ht ⊢
    exact hw t ht
  · push_neg at h1
    rw [admin_generate_teams_run shuffle w h1.1 h1.2] at ht ⊢
    exact formGroups_invariant _ _ _ w 0 hw t ht

def C1team : Team :=
  { id := 1, name := "Team 1", score := 0, route_id := some 1,
    route_step_index := 0, current_poi_id := some 1, is_finished := false }

def C1db : DB :=
  { steps := [⟨1, 1, 0⟩], pois := [⟨1, "photo", none, some 10⟩],
    progress := [mkProgress 1 1], subs := [] }

def C1world : World :=
  { users := [⟨1, false, none⟩, ⟨2, false, none⟩, ⟨3, false, none⟩],
    teams := [], routes := [⟨1, "Route A"⟩], db := C1db, next_team_id := 1 }

theorem c1_engine_invariant_witness :
    teamInvariant (request_hint C1team C1db) C1team = true ∧
    teamInvariant (admin_generate_teams id C1world).1.db
      ((admin_generate_teams id C1world).1.teams.getD 0 C1team) = true := by
  constructor
  · exact c1_engine_invariant.2.2.1 C1team C1db (by decide)
  · exact c1_engine_invariant.2.2.2 id C1world (by decide) _ (by decide)

/-- C2: `complete_current_poi` awards exactly
`max 0 (points - 2 * hints_used)` where `hints_used` is read from the
team's progress record for that POI, adds the award to the team's score,
and hence never awards a negative amount and never decreases the score. -/
theorem c2_completion_award (now : Nat) (team : Team) (poi : POI) (db : DB)
    (p : Int) (hp : poi.points = some p) :
    (complete_current_poi now team poi db).1 =
      max 0 (p - 2 * (hintsUsed db team.id poi.id : Int))
    ∧ (complete_current_poi now team poi db).2.1.score =
        team.score + (complete_current_poi now team poi db).1
    ∧ 0 ≤ (complete_current_poi now team poi db).1
    ∧ team.score ≤ (complete_current_poi now team poi db).2.1.score := by
  have haw := complete_current_poi_award now team poi db
  have hpy : pyIntOr poi.points 0 = p := by
    rw [hp]
    by_cases h : p = 0 <;> simp [pyIntOr, h]
  rw [hpy] at haw
  refine ⟨haw, complete_current_poi_score now team poi db, ?_, ?_⟩
  · rw [haw]; exact le_max_left 0 _
  · rw [complete_current_poi_score now team poi db]
    have := complete_current_poi_award_nonneg now team poi db
    omega

def C2team : Team :=
  { id := 1, name := "Team 1", score := 5, route_id := some 1,
    route_step_index := 0, current_poi_id := some 1, is_finished := false }

def C2poi : POI := { id := 1, completion_type := "photo", answer_key := none, points := some 10 }

def C2db : DB :=
  { steps := [⟨1, 1, 0⟩], pois := [C2poi],
    progress := [{ team_id := 1, poi_id := 1, status := "assigned", hints_used := 1, completed_at := none }],
    subs := [] }

theorem c2_completion_award_witness :
    C2poi.points = some 10 ∧
    ((complete_current_poi 0 C2team C2poi C2db).1 =
        max 0 (10 - 2 * (hintsUsed C2db C2team.id C2poi.id : Int))
      ∧ (complete_current_poi 0 C2team C2poi C2db).2.1.score =
          C2team.score + (complete_current_poi 0 C2team C2poi C2db).1
      ∧ 0 ≤ (complete_current_poi 0 C2team C2poi C2db).1
      ∧ C2team.score ≤ (complete_current_poi 0 C2team C2poi C2db).2.1.score) :=
  ⟨rfl, c2_completion_award 0 C2team C2poi C2db 10 rfl⟩

/-- C3: `assign_next_poi` is idempotent: running it a second time without an
intervening completion returns the identical team row (same current POI,
same `is_finished`, same `route_step_index`) and the identical store (in
particular no second `TeamPOIProgress` row for the same pair). -/
theorem c3_assign_idempotent (team : Team) (db : DB) :
    assign_next_poi (assign_next_poi team db).1 (assign_next_poi team db).2 =
      assign_next_poi team db :=
  assign_next_poi_idem team db

/-- C8: invoking `complete_current_poi` twice in succession for the same
(team, POI) double-advances: the step index grows by 2 in total, the second
award equals the first (hints are unchanged by completion), and the award
is added to the score twice — nothing in the progress-record lookup guards
re-entrancy. -/
theorem c8_double_completion (now1 now2 : Nat) (team : Team) (poi : POI) (db : DB) :
    (complete_current_poi now2 (complete_current_poi now1 team poi db).2.1 poi
        (complete_current_poi now1 team poi db).2.2).2.1.route_step_index =
      team.route_step_index + 2
    ∧ (complete_current_poi now2 (complete_current_poi now1 team poi db).2.1 poi
        (complete_current_poi now1 team poi db).2.2).1 =
      (complete_current_poi now1 team poi db).1
    ∧ (complete_current_poi now2 (complete_current_poi now1 team poi db).2.1 poi
        (complete_current_poi now1 team poi db).2.2).2.1.score =
      team.score + (complete_current_poi now1 team poi db).1 +
        (complete_current_poi now1 team poi db).1 := by
  have heq : (complete_current_poi now2 (complete_current_poi now1 team poi db).2.1 poi
      (complete_current_poi now1 team poi db).2.2).1 =
      (complete_current_poi now1 team poi db).1 := by
    rw [complete_current_poi_award now2, complete_current_poi_award now1,
      complete_current_poi_team_id, complete_current_poi_hints]
  refine ⟨?_, heq, ?_⟩
  · rw [complete_current_poi_idx now2, complete_current_poi_idx now1]
  · rw [complete_current_poi_score now2, complete_current_poi_score now1, heq]

/-- C9: team formation requires at least one unassigned non-admin user and
at least one route; when either precondition fails the operation reports a
message and mutates nothing (the world is returned unchanged, no Team row,
no membership change, no seeded progress). -/
theorem c9_formation_preconditions (shuffle : List User → List User) (w : World)
    (h : ungroupedUsers w = [] ∨ w.routes = []) :
    admin_generate_teams shuffle w = (w, none) :=
  admin_generate_teams_noop shuffle w h

def C9world : World :=
  { users := [⟨1, true, none⟩], teams := [], routes := [⟨1, "Route A"⟩],
    db := { steps := [], pois := [], progress := [], subs := [] },
    next_team_id := 1 }

theorem c9_formation_preconditions_witness :
    (ungroupedUsers C9world = [] ∨ C9world.routes = []) ∧
    admin_generate_teams id C9world = (C9world, none) :=
  ⟨Or.inl (by decide), c9_formation_preconditions id C9world (Or.inl (by decide))⟩

def C4poi1 : POI := { id := 1, completion_type := "photo", answer_key := none, points := some 10 }

def C4poi2 : POI := { id := 2, completion_type := "photo", answer_key := none, points := some 12 }

def C4db : DB := { steps := [⟨1, 1, 0⟩, ⟨1, 2, 1⟩], pois := [C4poi1, C4poi2], progress := [mkProgress 1 1], subs := [] }

def C4team : Team :=
  { id := 1, name := "Team 1", score := 0, route_id := some 1,
    route_step_index := 0, current_poi_id := some 1, is_finished := false }

def C4req : Request := { proof_file := some "p.jpg", proof_text := none }

def C4once : Team × DB := submit_proof 5 C4team C4req C4db

def C4twice : Team × DB := submit_proof 6 C4once.1 C4req C4once.2

/-- C4 counterexample: the claim "a stale or duplicate request for an
already-advanced POI must not mutate score or step index" fails on the
code.  `C4req` is accepted for POI 1 (score 10, step advanced, current POI
becomes 2); replaying the byte-identical request — a duplicate request for
the already-advanced POI 1 — is re-graded against the new current POI and
mutates both the score and the step index again. -/
theorem c4_counterexample :
    (C4once.1.score = 10 ∧ C4once.1.route_step_index = 1 ∧
      C4once.1.current_poi_id = some 2)
    ∧ C4twice.1.score = 22 ∧ C4twice.1.route_step_index = 2 := by
  decide

/-- C4 (amended): the public submit operation carries no POI parameter and
only ever grades the team's current POI: every run of `submit_proof`
either leaves the whole state unchanged or equals recording a submission
for the team's current POI followed by completing that same POI.  No POI
other than the current one is ever graded, but a duplicate request CAN
mutate score and step index, because it is re-graded against the team's
new current POI. -/
theorem c4_grades_only_current_poi (now : Nat) (team : Team) (req : Request)
    (db : DB) :
    submit_proof now team req db = (team, db) ∨
    ∃ pid poi ty content, team.current_poi_id = some pid ∧
      findPOI db.pois pid = some poi ∧
      submit_proof now team req db = record_and_complete now team poi ty content db :=
  submit_proof_cases now team req db

def C5poi : POI := { id := 1, completion_type := "text", answer_key := some "1410", points := some 10 }

def C5db : DB := { steps := [⟨1, 1, 0⟩], pois := [C5poi], progress := [mkProgress 1 1], subs := [] }

def C5team : Team :=
  { id := 1, name := "Team 1", score := 0, route_id := some 1,
    route_step_index := 0, current_poi_id := some 1, is_finished := false }

/-- C5: text-mode grading normalizes both sides by `strip().lower()` and
compares for exact equality.  On mismatch the submission is rejected with
no change at all to the state (score, step index, current POI, progress,
and no Submission row); on match (with a non-empty key) it is accepted and
recorded.  Answer key `"1410"` accepts `" 1410 "` and `"1410"` but rejects
`"1411"`. -/
theorem c5_text_grading :
    (∀ (now : Nat) (team : Team) (req : Request) (db : DB) (pid : Nat) (poi : POI),
      team.current_poi_id = some pid → findPOI db.pois pid = some poi →
      poi.completion_type = "text" →
      py_lower (py_strip (req.proof_text.getD "")) ≠
        py_lower (py_strip (poi.answer_key.getD "")) →
      submit_proof now team req db = (team, db))
    ∧ (∀ (now : Nat) (team : Team) (req : Request) (db : DB) (pid : Nat) (poi : POI),
      team.current_poi_id = some pid → findPOI db.pois pid = some poi →
      poi.completion_type = "text" →
      py_lower (py_strip (poi.answer_key.getD "")) ≠ "" →
      py_lower (py_strip (req.proof_text.getD "")) =
        py_lower (py_strip (poi.answer_key.getD "")) →
      submit_proof now team req db = record_and_complete now team poi "text"
        (py_lower (py_strip (req.proof_text.getD ""))) db)
    ∧ ((submit_proof 0 C5team ⟨none, some " 1410 "⟩ C5db).2.subs.length = 1
      ∧ (submit_proof 0 C5team ⟨none, some " 1410 "⟩ C5db).1.score = 10
      ∧ (submit_proof 0 C5team ⟨none, some "1410"⟩ C5db).1.score = 10
      ∧ submit_proof 0 C5team ⟨none, some "1411"⟩ C5db = (C5team, C5db)) := by
  refine ⟨?_, ?_, ?_⟩
  · intro now team req db pid poi hc hp htext hne
    apply submit_proof_text_reject now team req db pid poi hc hp
    · rw [htext]; decide
    · rintro ⟨-, heq⟩; exact hne heq
  · intro now team req db pid poi hc hp htext hkey heq
    exact submit_proof_text_accept now team req db pid poi hc hp
      (by rw [htext]; decide) ⟨hkey, heq⟩
  · refine ⟨by decide, by decide, by decide, by decide⟩

theorem c5_text_grading_witness :
    C5team.current_poi_id = some 1 ∧ findPOI C5db.pois 1 = some C5poi ∧
    C5poi.completion_type = "text" ∧
    py_lower (py_strip ((Request.mk none (some "1411")).proof_text.getD "")) ≠
      py_lower (py_strip (C5poi.answer_key.getD "")) ∧
    submit_proof 3 C5team (Request.mk none (some "1411")) C5db = (C5team, C5db) :=
  ⟨rfl, by decide, rfl, by decide,
    c5_text_grading.1 3 C5team (Request.mk none (some "1411")) C5db 1 C5poi
      rfl (by decide) rfl (by decide)⟩

/-- C10: in text mode, when the stored answer key is missing or normalizes
to the empty string, every submission is rejected — including one whose
answer also normalizes to empty — with no Submission recorded and no state
change: the grading condition demands a non-empty normalized key before
comparing. -/
theorem c10_empty_key_rejects (now : Nat) (team : Team) (req : Request)
    (db : DB) (pid : Nat) (poi : POI)
    (hc : team.current_poi_id = some pid) (hp : findPOI db.pois pid = some poi)
    (htext : poi.completion_type = "text")
    (hkey : poi.answer_key = none ∨ py_lower (py_strip (poi.answer_key.getD "")) = "") :
    submit_proof now team req db = (team, db) := by
  have hkey' : py_lower (py_strip (poi.answer_key.getD "")) = "" := by
    rcases hkey with h | h
    · rw [h]; rfl
    · exact h
  apply submit_proof_text_reject now team req db pid poi hc hp
  · rw [htext]; decide
  · rintro ⟨hne, -⟩; exact hne hkey'

def C10poi : POI := { id := 1, completion_type := "text", answer_key := some "   ", points := some 10 }

def C10db : DB := { steps := [⟨1, 1, 0⟩], pois := [C10poi], progress := [mkProgress 1 1], subs := [] }

def C10team : Team :=
  { id := 1, name := "Team 1", score := 0, route_id := some 1,
    route_step_index := 0, current_poi_id := some 1, is_finished := false }

theorem c10_empty_key_rejects_witness :
    C10team.current_poi_id = some 1 ∧ findPOI C10db.pois 1 = some C10poi ∧
    C10poi.completion_type = "text" ∧
    py_lower (py_strip (C10poi.answer_key.getD "")) = "" ∧
    submit_proof 2 C10team (Request.mk none (some "  ")) C10db = (C10team, C10db) :=
  ⟨rfl, by decide, rfl, by decide,
    c10_empty_key_rejects 2 C10team (Request.mk none (some "  ")) C10db 1 C10poi
      rfl (by decide) rfl (Or.inr (by decide))⟩

/-- C6: with a current POI, `request_hint` increments the progress record's
hint counter by exactly 1 while it is below 3 and is a silent no-op at or
beyond 3; the counter is monotone and capped at 3, and five consecutive
calls starting from a fresh record (0 hints) leave it at exactly 3. -/
theorem c6_hint_cap (team : Team) (db : DB) (pid : Nat) (q : POI)
    (hc : team.current_poi_id = some pid) (hp : findPOI db.pois pid = some q) :
    (hintsUsed (request_hint team db) team.id pid =
      if hintsUsed db team.id pid < 3 then hintsUsed db team.id pid + 1
      else hintsUsed db team.id pid)
    ∧ hintsUsed db team.id pid ≤ hintsUsed (request_hint team db) team.id pid
    ∧ (hintsUsed db team.id pid ≤ 3 →
        hintsUsed (request_hint team db) team.id pid ≤ 3)
    ∧ (hintsUsed db team.id pid = 0 →
        hintsUsed ((fun d => request_hint team d)^[5] db) team.id pid = 3) := by
  have hstep := request_hint_hints team db pid q hc hp
  refine ⟨hstep, ?_, ?_, ?_⟩
  · rw [hstep]; split <;> omega
  · intro h3; rw [hstep]; split <;> omega
  · intro h0
    have step : ∀ d : DB, findPOI d.pois pid = some q →
        findPOI (request_hint team d).pois pid = some q ∧
        hintsUsed (request_hint team d) team.id pid =
          (if hintsUsed d team.id pid < 3 then hintsUsed d team.id pid + 1
            else hintsUsed d team.id pid) :=
      fun d hd => ⟨by rw [request_hint_pois]; exact hd,
        request_hint_hints team d pid q hc hd⟩
    obtain ⟨hq1, he1⟩ := step db hp
    rw [h0] at he1
    simp only [Nat.zero_lt_succ, if_true] at he1
    obtain ⟨hq2, he2⟩ := step _ hq1
    rw [he1] at he2
    norm_num at he2
    obtain ⟨hq3, he3⟩ := step _ hq2
    rw [he2] at he3
    norm_num at he3
    obtain ⟨hq4, he4⟩ := step _ hq3
    rw [he3] at he4
    norm_num at he4
    obtain ⟨hq5, he5⟩ := step _ hq4
    rw [he4] at he5
    norm_num at he5
    show hintsUsed (request_hint team (request_hint team (request_hint team
      (request_hint team (request_hint team db))))) team.id pid = 3
    rw [he5]

def C6poi : POI := { id := 1, completion_type := "photo", answer_key := none, points := some 10 }

def C6db : DB := { steps := [⟨1, 1, 0⟩], pois := [C6poi], progress := [mkProgress 1 1], subs := [] }

def C6team : Team :=
  { id := 1, name := "Team 1", score := 0, route_id := some 1,
    route_step_index := 0, current_poi_id := some 1, is_finished := false }

theorem c6_hint_cap_witness :
    C6team.current_poi_id = some 1 ∧ findPOI C6db.pois 1 = some C6poi ∧
    ((hintsUsed (request_hint C6team C6db) C6team.id 1 =
      if hintsUsed C6db C6team.id 1 < 3 then hintsUsed C6db C6team.id 1 + 1
      else hintsUsed C6db C6team.id 1)
    ∧ hintsUsed C6db C6team.id 1 ≤ hintsUsed (request_hint C6team C6db) C6team.id 1
    ∧ (hintsUsed C6db C6team.id 1 ≤ 3 →
        hintsUsed (request_hint C6team C6db) C6team.id 1 ≤ 3)
    ∧ (hintsUsed C6db C6team.id 1 = 0 →
        hintsUsed ((fun d => request_hint C6team d)^[5] C6db) C6team.id 1 = 3)) :=
  ⟨rfl, by decide, c6_hint_cap C6team C6db 1 C6poi rfl (by decide)⟩

def C7world2 : World :=
  { users := [⟨1, false, none⟩, ⟨2, false, none⟩],
    teams := [], routes := [⟨1, "Route A"⟩],
    db := { steps := [⟨1, 1, 0⟩], pois := [⟨1, "photo", none, some 10⟩],
            progress := [], subs := [] },
    next_team_id := 1 }

/-- C7 counterexample: "no created team has only 1 or 2 members" fails for
every non-empty unassigned list: with exactly 2 unassigned users the single
chunk of size 2 has no preceding group to merge into (`len(chunks) > 1`
fails), so one team with exactly 2 members is created. -/
theorem c7_counterexample :
    (admin_generate_teams id C7world2).2 = some 1 ∧
    (admin_generate_teams id C7world2).1.teams.length = 1 ∧
    ((admin_generate_teams id C7world2).1.users.filter
      (fun u => u.team_id == some 1)).length = 2 := by
  decide

/-- C7 (amended): team formation chunks the shuffled unassigned users into
consecutive groups of 4 and, when more than one group exists and the final
group has fewer than 3 members, merges it into the preceding group; the
groups partition the shuffled list; one team is created per group with its
member count (whenever at least 3 users are unassigned every group — hence
every created team — has at least 3 members; a lone group of 1–2 users
still becomes a team of that size); 10 unassigned users chunk as [4,4,2]
and merge to [4,6]; routes are assigned round-robin over the id-sorted
route list by team creation order. -/
theorem c7_team_formation (shuffle : List User → List User) (w : World)
    (hperm : ∀ l, (shuffle l).Perm l)
    (hU : (w.users.map User.id).Nodup)
    (hfresh : ∀ u ∈ w.users, ∀ tid, u.team_id = some tid → tid < w.next_team_id)
    (hne : ungroupedUsers w ≠ []) (hr : w.routes ≠ []) :
    (mergeSmallLast (chunks4 (shuffle (ungroupedUsers w)))).flatten =
      shuffle (ungroupedUsers w)
    ∧ (admin_generate_teams shuffle w).2 =
        some (mergeSmallLast (chunks4 (shuffle (ungroupedUsers w)))).length
    ∧ (admin_generate_teams shuffle w).1.teams.length =
        w.teams.length + (mergeSmallLast (chunks4 (shuffle (ungroupedUsers w)))).length
    ∧ (∀ j, (hj : j < (mergeSmallLast (chunks4 (shuffle (ungroupedUsers w)))).length) →
        ((admin_generate_teams shuffle w).1.teams[w.teams.length + j]?).map Team.route_id
          = some (routeIdFor (sortRoutesById w.routes) j)
        ∧ ((admin_generate_teams shuffle w).1.users.filter
            (fun u => u.team_id == some (w.next_team_id + j))).length =
          ((mergeSmallLast (chunks4 (shuffle (ungroupedUsers w)))).get ⟨j, hj⟩).length
        ∧ (3 ≤ (ungroupedUsers w).length →
            3 ≤ ((mergeSmallLast (chunks4 (shuffle (ungroupedUsers w)))).get ⟨j, hj⟩).length))
    ∧ ((ungroupedUsers w).length = 10 →
        (chunks4 (shuffle (ungroupedUsers w))).map List.length = [4, 4, 2]
        ∧ (mergeSmallLast (chunks4 (shuffle (ungroupedUsers w)))).map List.length = [4, 6]) := by
  have hflat : (mergeSmallLast (chunks4 (shuffle (ungroupedUsers w)))).flatten =
      shuffle (ungroupedUsers w) := by
    rw [mergeSmallLast_flatten, chunks4_flatten]
  have hrun := admin_generate_teams_run shuffle w hne hr
  have hsubl : (ungroupedUsers w).Sublist w.users :=
    (List.filter_sublist _).trans (List.filter_sublist w.users)
  have hUids : ((ungroupedUsers w).map User.id).Nodup :=
    List.Nodup.sublist (List.Sublist.map User.id hsubl) hU
  have hLperm : (shuffle (ungroupedUsers w)).Perm (ungroupedUsers w) := hperm _
  have hLids : ((shuffle (ungroupedUsers w)).map User.id).Nodup :=
    ((hLperm.map User.id).nodup_iff).2 hUids
  have hGn : ((mergeSmallLast (chunks4 (shuffle (ungroupedUsers w)))).flatten.map User.id).Nodup := by
    rw [hflat]; exact hLids
  have hsub : ∀ x ∈ (mergeSmallLast (chunks4 (shuffle (ungroupedUsers w)))).flatten,
      x.id ∈ w.users.map User.id := by
    rw [hflat]
    intro x hx
    exact List.mem_map.2 ⟨x, hsubl.subset ((hLperm.mem_iff).1 hx), rfl⟩
  have hteams := formGroups_teams w.teams.length (sortRoutesById w.routes)
    (mergeSmallLast (chunks4 (shuffle (ungroupedUsers w)))) w 0
  refine ⟨hflat, ?_, ?_, ?_, ?_⟩
  · rw [hrun]
  · rw [hrun]
    dsimp only
    rw [hteams]
    simp
  · intro j hj
    refine ⟨?_, ?_, ?_⟩
    · rw [hrun]
      dsimp only
      rw [hteams]
      rw [List.getElem?_append_right (by omega)]
      have harith : w.teams.length + j - w.teams.length = j := by omega
      rw [harith, List.getElem?_map, List.getElem?_range hj]
      simp [seededTeam_route_id]
    · rw [hrun]
      dsimp only
      exact formGroups_member_count w.teams.length (sortRoutesById w.routes)
        (mergeSmallLast (chunks4 (shuffle (ungroupedUsers w)))) w 0
        hU hfresh hGn hsub j hj
    · intro h3
      apply mergeSmallLast_sizes (shuffle (ungroupedUsers w))
        (by rw [hLperm.length_eq]; exact h3)
      exact List.get_mem _ j hj
  · intro h10
    have hlen : (shuffle (ungroupedUsers w)).length = 10 := by
      rw [hLperm.length_eq]; exact h10
    have hmap : (chunks4 (shuffle (ungroupedUsers w))).map List.length = [4, 4, 2] := by
      rw [chunks4_map_length, hlen]
      decide
    refine ⟨hmap, ?_⟩
    rcases hchunks : chunks4 (shuffle (ungroupedUsers w)) with
      _ | ⟨g1, _ | ⟨g2, _ | ⟨g3, _ | ⟨g4, t⟩⟩⟩⟩ <;>
      rw [hchunks] at hmap <;> simp at hmap
    obtain ⟨l1, l2, l3⟩ := hmap
    rw [mergeSmallLast, if_pos ⟨by simp, by simp [List.getLastD_cons, l3]⟩]
    simp [l1, l2, l3]

def C7world10 : World :=
  { users := [⟨1, false, none⟩, ⟨2, false, none⟩, ⟨3, false, none⟩,
      ⟨4, false, none⟩, ⟨5, false, none⟩, ⟨6, false, none⟩, ⟨7, false, none⟩,
      ⟨8, false, none⟩, ⟨9, false, none⟩, ⟨10, false, none⟩],
    teams := [], routes := [⟨1, "Route A"⟩, ⟨2, "Route B"⟩],
    db := { steps := [⟨1, 1, 0⟩, ⟨2, 1, 0⟩], pois := [⟨1, "photo", none, some 10⟩],
            progress := [], subs := [] },
    next_team_id := 1 }

theorem c7_team_formation_witness :
    (admin_generate_teams id C7world10).2 = some 2 ∧
    (admin_generate_teams id C7world10).1.teams.length = C7world10.teams.length + 2 ∧
    (chunks4 (id (ungroupedUsers C7world10))).map List.length = [4, 4, 2] ∧
    (mergeSmallLast (chunks4 (id (ungroupedUsers C7world10)))).map List.length = [4, 6] := by
  have h := c7_team_formation id C7world10 (fun l => List.Perm.refl l)
    (by decide) (by decide) (by decide) (by decide)
  have hlen2 : (mergeSmallLast (chunks4 (id (ungroupedUsers C7world10)))).length = 2 := by
    decide
  have h10 := h.2.2.2.2 (by decide)
  refine ⟨?_, ?_, h10.1, h10.2⟩
  · rw [h.2.1, hlen2]
  · rw [h.2.2.1, hlen2]

end Realspeur
